import Mathlib

/-!
Verification of the topology-consistency engine of the DataImporter module
(src/Modules/Scripted/ShapeAnalysisToolBox/DataImporter.py).

The engine is `DataImporterLogic`.  Its mutable fields (`segmentationDict`,
`labelRangeInCohort`, `topologyDict`, `expectedTopologiesBySegment`,
`inconsistentTopologyDict`, ...) are modelled as an explicit `EngineState`
record whose dictionary fields are insertion-ordered association lists, the
faithful shallow model of Python dicts.  Methods become pure functions that
take and return `EngineState`; Python exceptions (KeyError from a missing
dict key, StopIteration from `next(iter({}))`) become `Except String`.

External collaborators (Slicer node loading, the VTK clean / connectivity /
edge-extraction pipeline) are outside this repository: a loaded segmentation
is modelled as the data it hands to the engine, namely a list of
(segmentName, optional topology number) pairs, where `none` stands for a
segment whose closed-surface polydata could not be obtained and `some chi`
for a surface whose VTK pipeline yields topology number `chi`
(points - edges + polys).  Every piece of control flow of the engine itself
is translated from the source.
-/

namespace DataImporter

/-- Python dict lookup `d[k]` as a total function returning `Option`:
first entry whose key equals `k` (association-list model of a dict). -/
def alistFind {κ α : Type} [DecidableEq κ] (k : κ) : List (κ × α) → Option α
  | [] => none
  | (k2, v) :: rest => if k2 = k then some v else alistFind k rest

/-- Python dict assignment `d[k] = v`: replace the entry in place when the
key exists, otherwise append (insertion order preserved). -/
def alistInsert {κ α : Type} [DecidableEq κ] (k : κ) (v : α) :
    List (κ × α) → List (κ × α)
  | [] => [(k, v)]
  | (k2, v2) :: rest =>
    if k2 = k then (k, v) :: rest else (k2, v2) :: alistInsert k v rest

/-- Inner dictionaries of the two-level topology table: segmentName mapped to
topology number. -/
abbrev SegTable := List (String × Int)

/-- The two-level topology table `topologyDict`: nodeName mapped to
(segmentName mapped to topology number). -/
abbrev TopoTable := List (String × SegTable)

/-- Nested lookup `d[n][s]` of a two-level dictionary, as an `Option`. -/
def lookup2 (t : TopoTable) (n s : String) : Option Int :=
  (alistFind n t).bind (fun segs => alistFind s segs)

/-- Class constant `TOPOLOGY_STRIP_TYPE = 0`. -/
def TOPOLOGY_STRIP_TYPE : Int := 0

/-- Class constant `TOPOLOGY_DISK_TYPE = 1`. -/
def TOPOLOGY_DISK_TYPE : Int := 1

/-- Class constant `TOPOLOGY_SPHERE_TYPE = 2`. -/
def TOPOLOGY_SPHERE_TYPE : Int := 2

/-- Class constant `TOPOLOGY_DOUBLE_TORUS_TYPE = -2`. -/
def TOPOLOGY_DOUBLE_TORUS_TYPE : Int := -2

/-- Class constant `TOPOLOGY_TRIPLE_TORUS_TYPE = -4`. -/
def TOPOLOGY_TRIPLE_TORUS_TYPE : Int := -4

/-- Class constant `TOPOLOGY_MULTIPLE_HOLES_TYPE = -9999` (sentinel bucket). -/
def TOPOLOGY_MULTIPLE_HOLES_TYPE : Int := -9999

/-- The class dictionary `TOPOLOGY_TYPES` mapping topology numbers to their
display names, in source order. -/
def TOPOLOGY_TYPES : List (Int × String) :=
  [ (TOPOLOGY_STRIP_TYPE, "Circle/Torus/Mobius Strip"),
    (TOPOLOGY_DISK_TYPE, "Disk"),
    (TOPOLOGY_SPHERE_TYPE, "Sphere"),
    (TOPOLOGY_DOUBLE_TORUS_TYPE, "Double Torus"),
    (TOPOLOGY_TRIPLE_TORUS_TYPE, "Triple Torus"),
    (TOPOLOGY_MULTIPLE_HOLES_TYPE, "Multiple Holes") ]

/-- The engine state: the mutable fields of `DataImporterLogic` that the
topology engine reads or writes.  Node handles held in the dictionaries are
replaced by the segment data they supply (see the module docstring);
`polyDataDict`, `saveCleanData` and the GUI index helpers carry no logic
relevant here and are omitted. -/
structure EngineState where
  labelMapDict : List (String × List (String × Option Int))
  modelDict : List (String × Option Int)
  segmentationDict : List (String × List (String × Option Int))
  labelRangeInCohort : Int × Int
  topologyDict : TopoTable
  expectedTopologiesBySegment : List (String × Int)
  inconsistentTopologyDict : TopoTable
  deriving DecidableEq

/-- State after `__init__` (and the fields reset by `cleanup`). -/
def initEngineState : EngineState :=
  { labelMapDict := []
    modelDict := []
    segmentationDict := []
    labelRangeInCohort := (-1, -1)
    topologyDict := []
    expectedTopologiesBySegment := []
    inconsistentTopologyDict := [] }

/-- Method `checkLabelRangeConsistency`: compare `(0, inputNumberOfSegments)`
against the cohort label range; consistent when the cohort range is still the
initial `(-1, -1)` or the ranges agree. -/
def checkLabelRangeConsistency (labelRangeInCohort : Int × Int)
    (inputNumberOfSegments : Int) : Bool × (Int × Int) :=
  let labelRange : Int × Int := (0, inputNumberOfSegments)
  if labelRangeInCohort ≠ (-1, -1) ∧ labelRange ≠ labelRangeInCohort then
    (false, labelRange)
  else
    (true, labelRange)

/-- Method `importSegmentation`.  `loadedSegments = none` models a failed
`loadSegmentation` (the method returns False before touching any field);
`some segments` models a successfully loaded segmentation node with the given
named segments.  On a label-range mismatch the method returns False and
modifies no field; only on success are `segmentationDict` and
`labelRangeInCohort` assigned. -/
def importSegmentation (st : EngineState) (fileName : String)
    (loadedSegments : Option (List (String × Option Int))) : Bool × EngineState :=
  match loadedSegments with
  | none => (false, st)
  | some segments =>
    let res := checkLabelRangeConsistency st.labelRangeInCohort
      (segments.length : Int)
    if res.1 then
      (true, { st with
                segmentationDict := alistInsert fileName segments st.segmentationDict,
                labelRangeInCohort := res.2 })
    else
      (false, st)

/-- Method `importLabelMap`: same gate as `importSegmentation`, additionally
recording the label-map node under `labelMapDict` on success. -/
def importLabelMap (st : EngineState) (fileName : String)
    (loadedSegments : Option (List (String × Option Int))) : Bool × EngineState :=
  match loadedSegments with
  | none => (false, st)
  | some segments =>
    let res := checkLabelRangeConsistency st.labelRangeInCohort
      (segments.length : Int)
    if res.1 then
      (true, { st with
                labelMapDict := alistInsert fileName segments st.labelMapDict,
                segmentationDict := alistInsert fileName segments st.segmentationDict,
                labelRangeInCohort := res.2 })
    else
      (false, st)

/-- Method `importModel`: a model contributes exactly one segment, renamed to
"1" by the source before the range check, so the checked count is 1. -/
def importModel (st : EngineState) (fileName : String)
    (loadedMesh : Option (Option Int)) : Bool × EngineState :=
  match loadedMesh with
  | none => (false, st)
  | some mesh =>
    let segments : List (String × Option Int) := [("1", mesh)]
    let res := checkLabelRangeConsistency st.labelRangeInCohort
      (segments.length : Int)
    if res.1 then
      (true, { st with
                modelDict := alistInsert fileName mesh st.modelDict,
                segmentationDict := alistInsert fileName segments st.segmentationDict,
                labelRangeInCohort := res.2 })
    else
      (false, st)

/-- Inner loop of `populateTopologyDictionary` for one segmentation node:
segment "0" is skipped as background, a segment without closed-surface
polydata is skipped with a warning, and every other segment is stored with
the topology number its VTK pipeline yields. -/
def populateSegmentsForNode (segments : List (String × Option Int)) : SegTable :=
  segments.foldl
    (fun acc seg =>
      if seg.1 = "0" then acc
      else
        match seg.2 with
        | none => acc
        | some topologyNumber => alistInsert seg.1 topologyNumber acc)
    []

/-- Method `populateTopologyDictionary`: for every node of
`segmentationDict`, reset its row of `topologyDict` and fill it from the
node segments (`polyDataDict` bookkeeping is external mesh storage and
is omitted). -/
def populateTopologyDictionary (st : EngineState) : EngineState :=
  { st with
    topologyDict := st.segmentationDict.foldl
      (fun td node => alistInsert node.1 (populateSegmentsForNode node.2) td)
      st.topologyDict }

/-- Keep the first occurrence of every element, in order (the insertion
order of a `Counter`, and the membership of a Python set built by `add`). -/
def dedupFirst {α : Type} [DecidableEq α] : List α → List α
  | [] => []
  | x :: xs => x :: (dedupFirst xs).filter (fun y => decide (y ≠ x))

/-- The loop of lines 300 to 303 of `_computeModeOfSegment`: the topology
values observed for segment `s` across all subjects that have it, in table
order. -/
def segmentObservations (table : TopoTable) (s : String) : List Int :=
  table.filterMap (fun row => alistFind s row.2)

/-- `Counter(l).most_common(1)[0][0]`: the first value, in first-occurrence
order, whose count in `l` is maximal (CPython `most_common` is backed by a
stable sort by count, so ties keep first-insertion order). -/
def mostCommon1 : List Int → Int
  | [] => 0
  | x :: xs =>
    (dedupFirst (x :: xs)).foldl
      (fun best y =>
        if (x :: xs).count best < (x :: xs).count y then y else best)
      x

/-- Method `_computeModeOfSegment`: on an empty input dictionary the source
evaluates `next(iter(inputTopologyDict))`, which raises StopIteration; on a
non-empty table it returns `None` when the segment is observed nowhere and
otherwise the most common observed value. -/
def computeModeOfSegment (table : TopoTable) (s : String) :
    Except String (Option Int) :=
  match table with
  | [] => Except.error "StopIteration"
  | _ :: _ =>
    let segmentTopologies := segmentObservations table s
    if segmentTopologies.isEmpty then Except.ok none
    else Except.ok (some (mostCommon1 segmentTopologies))

/-- All segment names appearing in any row of the table, concatenated in
table order. -/
def allSegmentNames : TopoTable → List String
  | [] => []
  | row :: rest => row.2.map Prod.fst ++ allSegmentNames rest

/-- The set `segmentNames` built by `initExpectedTopologyBySegmentWithModes`;
a Python set is iteration-order-unspecified, modelled here as first
occurrences in table order (only membership matters to the engine). -/
def collectSegmentNames (table : TopoTable) : List String :=
  dedupFirst (allSegmentNames table)

/-- The keys of `TOPOLOGY_TYPES`, used for a membership test. -/
def topologyTypeKeys : List Int :=
  TOPOLOGY_TYPES.map Prod.fst

/-- Loop body of `initExpectedTopologyBySegmentWithModes` over the collected
segment names: the mode of each segment, clamped to
`TOPOLOGY_MULTIPLE_HOLES_TYPE` (with a warning) when it is not a key of
`TOPOLOGY_TYPES` (which also covers a `None` mode). -/
def initExpectedGo (table : TopoTable) : List String →
    Except String (List (String × Int))
  | [] => Except.ok []
  | s :: rest =>
    match computeModeOfSegment table s with
    | Except.error e => Except.error e
    | Except.ok mode =>
      let topologyType : Int :=
        match mode with
        | some v => if topologyTypeKeys.contains v then v
                    else TOPOLOGY_MULTIPLE_HOLES_TYPE
        | none => TOPOLOGY_MULTIPLE_HOLES_TYPE
      match initExpectedGo table rest with
      | Except.error e => Except.error e
      | Except.ok tail => Except.ok ((s, topologyType) :: tail)

/-- Method `initExpectedTopologyBySegmentWithModes` (the expected-topology
resolver): reset the expectation map and repopulate it with the per-segment
modes.  The function value is the new `expectedTopologiesBySegment`. -/
def initExpectedTopologyBySegmentWithModes (table : TopoTable) :
    Except String (List (String × Int)) :=
  initExpectedGo table (collectSegmentNames table)

/-- Inner loop of `checkTopologyConsistency` over the segments of one node:
record each segment whose topology differs from the expectation; a segment
name missing from the expectation map raises KeyError. -/
def segDeviations (expected : List (String × Int)) :
    SegTable → Except String SegTable
  | [] => Except.ok []
  | (segmentName, topologyType) :: rest =>
    match alistFind segmentName expected with
    | none => Except.error ("KeyError: " ++ segmentName)
    | some expectedType =>
      match segDeviations expected rest with
      | Except.error e => Except.error e
      | Except.ok tail =>
        Except.ok (if topologyType ≠ expectedType
                   then (segmentName, topologyType) :: tail else tail)

/-- Outer loop of `checkTopologyConsistency`: a node acquires a row in
`inconsistentSegments` exactly when at least one of its segments deviates. -/
def tableDeviations (expected : List (String × Int)) :
    TopoTable → Except String TopoTable
  | [] => Except.ok []
  | (nameNode, segmentsDict) :: rest =>
    match segDeviations expected segmentsDict with
    | Except.error e => Except.error e
    | Except.ok devRow =>
      match tableDeviations expected rest with
      | Except.error e => Except.error e
      | Except.ok tail =>
        Except.ok (if devRow.isEmpty then tail else (nameNode, devRow) :: tail)

/-- Method `checkTopologyConsistency`: when `expectedTopologiesBySegment` is
empty it is first initialised from the modes of the input table (a state
mutation); then every (node, segment, topology) entry is compared against
the expectation, and the flag reflects existence of inconsistencies. -/
def checkTopologyConsistency (st : EngineState)
    (inputTopologyDictionary : TopoTable) :
    Except String (EngineState × (Bool × TopoTable)) :=
  match (if st.expectedTopologiesBySegment.isEmpty then
           initExpectedTopologyBySegmentWithModes inputTopologyDictionary
         else
           Except.ok st.expectedTopologiesBySegment) with
  | Except.error e => Except.error e
  | Except.ok expected =>
    match tableDeviations expected inputTopologyDictionary with
    | Except.error e => Except.error e
    | Except.ok inconsistentSegments =>
      Except.ok ({ st with expectedTopologiesBySegment := expected },
                 (!inconsistentSegments.isEmpty, inconsistentSegments))

/-- Method `populateInconsistentTopologyDict`: an empty `topologyDict` only
logs; otherwise run the consistency check on `self.topologyDict` and store
the deviations.  A KeyError can only be raised when the expectation map was
non-empty, in which case nothing was mutated before the raise, so the
propagated-exception state is the input state. -/
def populateInconsistentTopologyDict (st : EngineState) : EngineState :=
  if st.topologyDict.isEmpty then st
  else
    match checkTopologyConsistency st st.topologyDict with
    | Except.ok (st1, r) => { st1 with inconsistentTopologyDict := r.2 }
    | Except.error _ => st

/-- Method `cleanup`: node removal from the scene is external; the fields
reset by the source are the label range, the topology table, the
inconsistency table (and the omitted `polyDataDict`).  The import
dictionaries themselves are not cleared by the source. -/
def cleanup (st : EngineState) : EngineState :=
  { st with
    labelRangeInCohort := (-1, -1)
    topologyDict := []
    inconsistentTopologyDict := [] }

/-- Method `getTopologyString`: display name of the stored topology number,
"n/a" when the pair is not in the table, and the numbered Multiple Holes
label when the number is not a key of `TOPOLOGY_TYPES`. -/
def getTopologyString (st : EngineState) (nodeName inputSegmentName : String) :
    String :=
  let segmentName := inputSegmentName
  match lookup2 st.topologyDict nodeName segmentName with
  | none => "n/a"
  | some topologyNum =>
    match alistFind topologyNum TOPOLOGY_TYPES with
    | none =>
      toString topologyNum ++ ": " ++
        ((alistFind TOPOLOGY_MULTIPLE_HOLES_TYPE TOPOLOGY_TYPES).getD "")
    | some s => s

/-- Method `getConsistencyString`: "Inconsistent" exactly when both lookups
into `inconsistentTopologyDict` succeed, "Consistent" otherwise. -/
def getConsistencyString (st : EngineState)
    (nodeName inputSegmentName : String) : String :=
  let segmentName := inputSegmentName
  match alistFind nodeName st.inconsistentTopologyDict with
  | none => "Consistent"
  | some inner =>
    match alistFind segmentName inner with
    | none => "Consistent"
    | some _ => "Inconsistent"

/-- The operations a session can perform on the engine, with the externally
loaded data each import supplies. -/
inductive EngineOp where
  | opImportLabelMap (fileName : String)
      (loaded : Option (List (String × Option Int)))
  | opImportSegmentation (fileName : String)
      (loaded : Option (List (String × Option Int)))
  | opImportModel (fileName : String) (loaded : Option (Option Int))
  | opPopulateTopology
  | opPopulateInconsistent
  | opCleanup

/-- One engine step. -/
def runOp (st : EngineState) : EngineOp → EngineState
  | EngineOp.opImportLabelMap f l => (importLabelMap st f l).2
  | EngineOp.opImportSegmentation f l => (importSegmentation st f l).2
  | EngineOp.opImportModel f l => (importModel st f l).2
  | EngineOp.opPopulateTopology => populateTopologyDictionary st
  | EngineOp.opPopulateInconsistent => populateInconsistentTopologyDict st
  | EngineOp.opCleanup => cleanup st

/-- Run a sequence of operations from a fresh engine. -/
def runOps (ops : List EngineOp) : EngineState :=
  ops.foldl runOp initEngineState

/-- No row of a topology table contains the background segment "0". -/
def noBackgroundSegment (td : TopoTable) : Prop :=
  ∀ row ∈ td, ∀ e ∈ row.2, e.1 ≠ "0"

/-- Decidable equality of `Except` results, used to evaluate concrete runs. -/
instance exceptDecEq {ε α : Type} [DecidableEq ε] [DecidableEq α] :
    DecidableEq (Except ε α) := fun a b =>
  match a, b with
  | Except.ok x, Except.ok y => decidable_of_iff (x = y) (by simp)
  | Except.ok _, Except.error _ => isFalse (fun h => Except.noConfusion h)
  | Except.error _, Except.ok _ => isFalse (fun h => Except.noConfusion h)
  | Except.error e, Except.error f => decidable_of_iff (e = f) (by simp)

/-- The table of the mode-resolution example of the specification. -/
def modeExampleTable : TopoTable :=
  [ ("name0", [("segA", 0), ("segB", 1)]),
    ("name1", [("segA", 1), ("segB", 0)]),
    ("name2", [("segA", 1), ("segB", 0)]) ]

/-- A table in which two topology values tie for most frequent on segment
"s" (one observation each). -/
def tieTable : TopoTable :=
  [("a", [("s", 0)]), ("b", [("s", 1)])]

theorem alistFind_nil {κ α : Type} [DecidableEq κ] (k : κ) :
    alistFind k ([] : List (κ × α)) = none := rfl

theorem alistFind_cons {κ α : Type} [DecidableEq κ] (k k2 : κ) (v : α)
    (rest : List (κ × α)) :
    alistFind k ((k2, v) :: rest)
      = if k2 = k then some v else alistFind k rest := rfl

theorem alistFind_eq_none {κ α : Type} [DecidableEq κ] (k : κ) :
    ∀ l : List (κ × α), alistFind k l = none ↔ k ∉ l.map Prod.fst
  | [] => by simp [alistFind]
  | (k2, v) :: rest => by
    by_cases h : k2 = k
    · subst h
      simp [alistFind_cons]
    · simp only [alistFind_cons, if_neg h, List.map_cons, List.mem_cons]
      rw [alistFind_eq_none k rest]
      constructor
      · intro h1 h2
        rcases h2 with h2 | h2
        · exact h h2.symm
        · exact h1 h2
      · intro h1 h2
        exact h1 (Or.inr h2)

theorem mem_alistInsert {κ α : Type} [DecidableEq κ] (k : κ) (v : α) :
    ∀ (l : List (κ × α)) (e : κ × α),
      e ∈ alistInsert k v l → e = (k, v) ∨ e ∈ l
  | [], e => by simp [alistInsert]
  | (k2, v2) :: rest, e => by
    simp only [alistInsert]
    by_cases h : k2 = k
    · rw [if_pos h]
      intro he
      rcases List.mem_cons.mp he with he | he
      · exact Or.inl he
      · exact Or.inr (List.mem_cons_of_mem _ he)
    · rw [if_neg h]
      intro he
      rcases List.mem_cons.mp he with he | he
      · exact Or.inr (he ▸ List.mem_cons_self _ _)
      · rcases mem_alistInsert k v rest e he with h1 | h1
        · exact Or.inl h1
        · exact Or.inr (List.mem_cons_of_mem _ h1)

theorem mem_dedupFirst {α : Type} [DecidableEq α] (a : α) :
    ∀ l : List α, a ∈ dedupFirst l ↔ a ∈ l
  | [] => by simp [dedupFirst]
  | x :: xs => by
    simp only [dedupFirst, List.mem_cons, List.mem_filter, decide_eq_true_eq]
    constructor
    · rintro (rfl | ⟨h1, _⟩)
      · exact Or.inl rfl
      · exact Or.inr ((mem_dedupFirst a xs).mp h1)
    · rintro (rfl | h)
      · exact Or.inl rfl
      · by_cases hax : a = x
        · exact Or.inl hax
        · exact Or.inr ⟨(mem_dedupFirst a xs).mpr h, hax⟩

theorem countFold_spec (l : List Int) :
    ∀ (cands : List Int) (acc : Int),
      (List.foldl (fun best y => if l.count best < l.count y then y else best)
          acc cands = acc
        ∨ List.foldl (fun best y => if l.count best < l.count y then y else best)
            acc cands ∈ cands)
      ∧ l.count acc ≤
          l.count (List.foldl
            (fun best y => if l.count best < l.count y then y else best) acc cands)
      ∧ ∀ y ∈ cands,
          l.count y ≤
            l.count (List.foldl
              (fun best y => if l.count best < l.count y then y else best) acc cands)
  | [], acc => by simp
  | c :: cs, acc => by
    simp only [List.foldl_cons]
    by_cases h : l.count acc < l.count c
    · rw [if_pos h]
      obtain ⟨h1, h2, h3⟩ := countFold_spec l cs c
      refine ⟨?_, le_trans (le_of_lt h) h2, ?_⟩
      · rcases h1 with h1 | h1
        · exact Or.inr (by rw [h1]; exact List.mem_cons_self _ _)
        · exact Or.inr (List.mem_cons_of_mem _ h1)
      · intro y hy
        rcases List.mem_cons.mp hy with rfl | hy
        · exact h2
        · exact h3 y hy
    · rw [if_neg h]
      obtain ⟨h1, h2, h3⟩ := countFold_spec l cs acc
      refine ⟨?_, h2, ?_⟩
      · rcases h1 with h1 | h1
        · exact Or.inl h1
        · exact Or.inr (List.mem_cons_of_mem _ h1)
      · intro y hy
        rcases List.mem_cons.mp hy with rfl | hy
        · exact le_trans (le_of_not_lt h) h2
        · exact h3 y hy

theorem mostCommon1_spec (l : List Int) (hl : l ≠ []) :
    mostCommon1 l ∈ l ∧ ∀ y ∈ l, l.count y ≤ l.count (mostCommon1 l) := by
  match l, hl with
  | x :: xs, _ =>
    obtain ⟨h1, _h2, h3⟩ := countFold_spec (x :: xs) (dedupFirst (x :: xs)) x
    have hval : mostCommon1 (x :: xs) =
        List.foldl (fun best y =>
          if (x :: xs).count best < (x :: xs).count y then y else best)
          x (dedupFirst (x :: xs)) := rfl
    constructor
    · rw [hval]
      rcases h1 with h1 | h1
      · rw [h1]; exact List.mem_cons_self _ _
      · exact (mem_dedupFirst _ _).mp h1
    · intro y hy
      rw [hval]
      exact h3 y ((mem_dedupFirst _ _).mpr hy)

theorem computeMode_of_ne_nil (table : TopoTable) (h : table ≠ [])
    (s : String) :
    computeModeOfSegment table s =
      (if (segmentObservations table s).isEmpty then Except.ok none
       else Except.ok (some (mostCommon1 (segmentObservations table s)))) := by
  match table, h with
  | r :: rs, _ => rfl

theorem computeMode_some_spec (table : TopoTable) (s : String) (v : Int)
    (h : computeModeOfSegment table s = Except.ok (some v)) :
    v ∈ segmentObservations table s ∧
      ∀ w ∈ segmentObservations table s,
        (segmentObservations table s).count w ≤
          (segmentObservations table s).count v := by
  cases table with
  | nil => simp [computeModeOfSegment] at h
  | cons r rs =>
    rw [computeMode_of_ne_nil _ (by simp) s] at h
    by_cases he : (segmentObservations (r :: rs) s).isEmpty
    · rw [if_pos he] at h
      simp at h
    · rw [if_neg he] at h
      have hv : v = mostCommon1 (segmentObservations (r :: rs) s) := by
        injection h with h
        injection h with h
        exact h.symm
      have hnil : segmentObservations (r :: rs) s ≠ [] := by
        intro hc
        rw [hc] at he
        exact he rfl
      obtain ⟨hm, hmax⟩ := mostCommon1_spec _ hnil
      exact ⟨hv ▸ hm, fun w hw => hv ▸ hmax w hw⟩

theorem computeMode_none_of_no_observation (table : TopoTable)
    (h : table ≠ []) (s : String)
    (hobs : segmentObservations table s = []) :
    computeModeOfSegment table s = Except.ok none := by
  rw [computeMode_of_ne_nil table h s, hobs]
  rfl

theorem computeMode_isOk_of_ne_nil (table : TopoTable) (h : table ≠ [])
    (s : String) :
    ∃ o, computeModeOfSegment table s = Except.ok o := by
  rw [computeMode_of_ne_nil table h s]
  by_cases he : (segmentObservations table s).isEmpty
  · exact ⟨none, by rw [if_pos he]⟩
  · exact ⟨some (mostCommon1 (segmentObservations table s)), by rw [if_neg he]⟩

theorem initExpectedGo_ok (table : TopoTable) (h : table ≠ []) :
    ∀ names : List String, ∃ e, initExpectedGo table names = Except.ok e
  | [] => ⟨[], rfl⟩
  | s :: rest => by
    obtain ⟨tail, htail⟩ := initExpectedGo_ok table h rest
    obtain ⟨o, ho⟩ := computeMode_isOk_of_ne_nil table h s
    cases o with
    | none =>
      refine ⟨(s, TOPOLOGY_MULTIPLE_HOLES_TYPE) :: tail, ?_⟩
      simp only [initExpectedGo, ho, htail]
    | some v =>
      refine ⟨(s, if topologyTypeKeys.contains v then v
                  else TOPOLOGY_MULTIPLE_HOLES_TYPE) :: tail, ?_⟩
      simp only [initExpectedGo, ho, htail]

theorem initExpectedGo_keys (table : TopoTable) :
    ∀ (names : List String) (e : List (String × Int)),
      initExpectedGo table names = Except.ok e → e.map Prod.fst = names
  | [], e => by
    intro h
    simp only [initExpectedGo] at h
    injection h with h
    rw [← h]
    rfl
  | s :: rest, e => by
    intro h
    simp only [initExpectedGo] at h
    cases hm : computeModeOfSegment table s with
    | error msg => rw [hm] at h; exact absurd h (by simp)
    | ok mode =>
      rw [hm] at h
      cases hrec : initExpectedGo table rest with
      | error msg => rw [hrec] at h; exact absurd h (by simp)
      | ok tail =>
        rw [hrec] at h
        injection h with h
        rw [← h, List.map_cons]
        rw [initExpectedGo_keys table rest tail hrec]

theorem mem_allSegmentNames (s : String) :
    ∀ t : TopoTable,
      s ∈ allSegmentNames t ↔ ∃ row ∈ t, s ∈ row.2.map Prod.fst
  | [] => by simp [allSegmentNames]
  | row :: rest => by
    simp only [allSegmentNames, List.mem_append, mem_allSegmentNames s rest,
      List.exists_mem_cons_iff]

theorem segmentObservations_eq_nil (table : TopoTable) (s : String) :
    segmentObservations table s = [] ↔
      ∀ row ∈ table, alistFind s row.2 = none := by
  simp only [segmentObservations, List.filterMap_eq_nil_iff]

theorem not_mem_collect_of_no_observation (table : TopoTable) (s : String)
    (hobs : segmentObservations table s = []) :
    s ∉ collectSegmentNames table := by
  intro hmem
  rw [collectSegmentNames, mem_dedupFirst, mem_allSegmentNames] at hmem
  obtain ⟨row, hrow, hs⟩ := hmem
  have hnone := (segmentObservations_eq_nil table s).mp hobs row hrow
  exact ((alistFind_eq_none s row.2).mp hnone) hs

theorem resolver_absent_of_no_observation (table : TopoTable) (s : String)
    (e : List (String × Int))
    (he : initExpectedTopologyBySegmentWithModes table = Except.ok e)
    (hobs : segmentObservations table s = []) :
    alistFind s e = none := by
  rw [alistFind_eq_none]
  rw [initExpectedGo_keys table (collectSegmentNames table) e he]
  exact not_mem_collect_of_no_observation table s hobs

theorem segDeviations_sub (expected : List (String × Int)) :
    ∀ (segs : SegTable) (d : SegTable),
      segDeviations expected segs = Except.ok d → ∀ e ∈ d, e ∈ segs
  | [], d => by
    intro h
    simp only [segDeviations] at h
    injection h with h
    rw [← h]
    simp
  | (s0, k0) :: rest, d => by
    intro h e he
    simp only [segDeviations] at h
    cases hf : alistFind s0 expected with
    | none => rw [hf] at h; exact absurd h (by simp)
    | some expectedType =>
      rw [hf] at h
      cases hrec : segDeviations expected rest with
      | error msg => rw [hrec] at h; exact absurd h (by simp)
      | ok tail =>
        rw [hrec] at h
        injection h with h
        rw [← h] at he
        by_cases hne : k0 ≠ expectedType
        · rw [if_pos hne] at he
          rcases List.mem_cons.mp he with he | he
          · exact he ▸ List.mem_cons_self _ _
          · exact List.mem_cons_of_mem _
              (segDeviations_sub expected rest tail hrec e he)
        · rw [if_neg hne] at he
          exact List.mem_cons_of_mem _
            (segDeviations_sub expected rest tail hrec e he)

theorem segDeviations_ok_of_covering (expected : List (String × Int)) :
    ∀ segs : SegTable,
      (∀ e ∈ segs, (alistFind e.1 expected).isSome) →
      ∃ d, segDeviations expected segs = Except.ok d
  | [] => fun _ => ⟨[], rfl⟩
  | (s0, k0) :: rest => by
    intro hcov
    obtain ⟨v, hv⟩ := Option.isSome_iff_exists.mp
      (hcov (s0, k0) (List.mem_cons_self _ _))
    have hv2 : alistFind s0 expected = some v := hv
    obtain ⟨tail, htail⟩ := segDeviations_ok_of_covering expected rest
      (fun e he => hcov e (List.mem_cons_of_mem _ he))
    refine ⟨if k0 ≠ v then (s0, k0) :: tail else tail, ?_⟩
    simp only [segDeviations, hv2, htail]

theorem segDeviations_covering_of_ok (expected : List (String × Int)) :
    ∀ (segs : SegTable) (d : SegTable),
      segDeviations expected segs = Except.ok d →
      ∀ e ∈ segs, ∃ v, alistFind e.1 expected = some v
  | [], d => by simp
  | (s0, k0) :: rest, d => by
    intro h e he
    simp only [segDeviations] at h
    cases hf : alistFind s0 expected with
    | none => rw [hf] at h; exact absurd h (by simp)
    | some expectedType =>
      rw [hf] at h
      cases hrec : segDeviations expected rest with
      | error msg => rw [hrec] at h; exact absurd h (by simp)
      | ok tail =>
        rcases List.mem_cons.mp he with he | he
        · exact ⟨expectedType, he ▸ hf⟩
        · exact segDeviations_covering_of_ok expected rest tail hrec e he

theorem segDeviations_all_match (expected : List (String × Int)) :
    ∀ segs : SegTable,
      (∀ e ∈ segs, alistFind e.1 expected = some e.2) →
      segDeviations expected segs = Except.ok []
  | [] => fun _ => rfl
  | (s0, k0) :: rest => by
    intro hmatch
    have h0 : alistFind s0 expected = some k0 :=
      hmatch (s0, k0) (List.mem_cons_self _ _)
    have hrest := segDeviations_all_match expected rest
      (fun e he => hmatch e (List.mem_cons_of_mem _ he))
    simp only [segDeviations, h0, hrest]
    rw [if_neg (fun hne => hne rfl)]

theorem segDeviations_lookup (expected : List (String × Int)) :
    ∀ (segs : SegTable) (d : SegTable),
      (segs.map Prod.fst).Nodup →
      segDeviations expected segs = Except.ok d →
      ∀ s, alistFind s d =
        (alistFind s segs).bind
          (fun k => if alistFind s expected = some k then none else some k)
  | [], d => by
    intro _ h s
    simp only [segDeviations] at h
    injection h with h
    rw [← h]
    rfl
  | (s0, k0) :: rest, d => by
    intro hnd h s
    simp only [segDeviations] at h
    cases hf : alistFind s0 expected with
    | none => rw [hf] at h; exact absurd h (by simp)
    | some expectedType =>
      rw [hf] at h
      cases hrec : segDeviations expected rest with
      | error msg => rw [hrec] at h; exact absurd h (by simp)
      | ok tail =>
        rw [hrec] at h
        injection h with h
        have hnd0 : s0 ∉ rest.map Prod.fst := by
          rw [List.map_cons] at hnd
          exact (List.nodup_cons.mp hnd).1
        have hndr : (rest.map Prod.fst).Nodup := by
          rw [List.map_cons] at hnd
          exact (List.nodup_cons.mp hnd).2
        have htail := segDeviations_lookup expected rest tail hndr hrec
        have htail_none : alistFind s0 tail = none := by
          rw [alistFind_eq_none]
          intro hmem
          rcases List.mem_map.mp hmem with ⟨e, he, hfst⟩
          exact hnd0 (List.mem_map.mpr
            ⟨e, segDeviations_sub expected rest tail hrec e he, hfst⟩)
        by_cases hs : s0 = s
        · subst hs
          rw [alistFind_cons, if_pos rfl]
          show alistFind s0 d =
            if alistFind s0 expected = some k0 then none else some k0
          by_cases hne : k0 ≠ expectedType
          · rw [← h, if_pos hne, alistFind_cons, if_pos rfl, hf]
            rw [if_neg (fun hh => hne (Option.some.inj hh).symm)]
          · push_neg at hne
            subst hne
            rw [← h, if_neg (fun hh => hh rfl), htail_none, hf]
            rw [if_pos rfl]
        · rw [alistFind_cons, if_neg hs]
          by_cases hne : k0 ≠ expectedType
          · rw [← h, if_pos hne, alistFind_cons, if_neg hs]
            exact htail s
          · rw [← h, if_neg hne]
            exact htail s

theorem tableDeviations_rows_sub (expected : List (String × Int)) :
    ∀ (t : TopoTable) (d : TopoTable),
      tableDeviations expected t = Except.ok d →
      ∀ row ∈ d, row.1 ∈ t.map Prod.fst
  | [], d => by
    intro h
    simp only [tableDeviations] at h
    injection h with h
    rw [← h]
    simp
  | (n0, segs) :: rest, d => by
    intro h row hrow
    simp only [tableDeviations] at h
    cases hsd : segDeviations expected segs with
    | error msg => rw [hsd] at h; exact absurd h (by simp)
    | ok devRow =>
      rw [hsd] at h
      cases hrec : tableDeviations expected rest with
      | error msg => rw [hrec] at h; exact absurd h (by simp)
      | ok tail =>
        rw [hrec] at h
        injection h with h
        rw [← h] at hrow
        simp only [List.map_cons]
        by_cases he : devRow.isEmpty
        · rw [if_pos he] at hrow
          exact List.mem_cons_of_mem _
            (tableDeviations_rows_sub expected rest tail hrec row hrow)
        · rw [if_neg he] at hrow
          rcases List.mem_cons.mp hrow with hrow | hrow
          · rw [hrow]
            exact List.mem_cons_self _ _
          · exact List.mem_cons_of_mem _
              (tableDeviations_rows_sub expected rest tail hrec row hrow)

theorem tableDeviations_ok_of_covering (expected : List (String × Int)) :
    ∀ t : TopoTable,
      (∀ row ∈ t, ∀ e ∈ row.2, (alistFind e.1 expected).isSome) →
      ∃ d, tableDeviations expected t = Except.ok d
  | [] => fun _ => ⟨[], rfl⟩
  | (n0, segs) :: rest => by
    intro hcov
    obtain ⟨devRow, hdev⟩ := segDeviations_ok_of_covering expected segs
      (fun e he => hcov (n0, segs) (List.mem_cons_self _ _) e he)
    obtain ⟨tail, htail⟩ := tableDeviations_ok_of_covering expected rest
      (fun row hrow => hcov row (List.mem_cons_of_mem _ hrow))
    refine ⟨if devRow.isEmpty then tail else (n0, devRow) :: tail, ?_⟩
    simp only [tableDeviations, hdev, htail]

theorem tableDeviations_covering_of_ok (expected : List (String × Int)) :
    ∀ (t : TopoTable) (d : TopoTable),
      tableDeviations expected t = Except.ok d →
      ∀ row ∈ t, ∀ e ∈ row.2, ∃ v, alistFind e.1 expected = some v
  | [], d => by simp
  | (n0, segs) :: rest, d => by
    intro h row hrow e he
    simp only [tableDeviations] at h
    cases hsd : segDeviations expected segs with
    | error msg => rw [hsd] at h; exact absurd h (by simp)
    | ok devRow =>
      rw [hsd] at h
      cases hrec : tableDeviations expected rest with
      | error msg => rw [hrec] at h; exact absurd h (by simp)
      | ok tail =>
        rcases List.mem_cons.mp hrow with hrow | hrow
        · subst hrow
          exact segDeviations_covering_of_ok expected segs devRow hsd e he
        · exact tableDeviations_covering_of_ok expected rest tail hrec
            row hrow e he

theorem tableDeviations_all_match (expected : List (String × Int)) :
    ∀ t : TopoTable,
      (∀ row ∈ t, ∀ e ∈ row.2, alistFind e.1 expected = some e.2) →
      tableDeviations expected t = Except.ok []
  | [] => fun _ => rfl
  | (n0, segs) :: rest => by
    intro hmatch
    have h0 := segDeviations_all_match expected segs
      (fun e he => hmatch (n0, segs) (List.mem_cons_self _ _) e he)
    have hrest := tableDeviations_all_match expected rest
      (fun row hrow => hmatch row (List.mem_cons_of_mem _ hrow))
    simp only [tableDeviations, h0, hrest]
    rfl

theorem tableDeviations_lookup (expected : List (String × Int)) :
    ∀ (t : TopoTable) (d : TopoTable),
      (t.map Prod.fst).Nodup →
      (∀ row ∈ t, (row.2.map Prod.fst).Nodup) →
      tableDeviations expected t = Except.ok d →
      ∀ n s, lookup2 d n s =
        (lookup2 t n s).bind
          (fun k => if alistFind s expected = some k then none else some k)
  | [], d => by
    intro _ _ h n s
    simp only [tableDeviations] at h
    injection h with h
    rw [← h]
    rfl
  | (n0, segs) :: rest, d => by
    intro hnd1 hnd2 h n s
    simp only [tableDeviations] at h
    cases hsd : segDeviations expected segs with
    | error msg => rw [hsd] at h; exact absurd h (by simp)
    | ok devRow =>
      rw [hsd] at h
      cases hrec : tableDeviations expected rest with
      | error msg => rw [hrec] at h; exact absurd h (by simp)
      | ok tail =>
        rw [hrec] at h
        injection h with h
        have hn0 : n0 ∉ rest.map Prod.fst := by
          rw [List.map_cons] at hnd1
          exact (List.nodup_cons.mp hnd1).1
        have hndr : (rest.map Prod.fst).Nodup := by
          rw [List.map_cons] at hnd1
          exact (List.nodup_cons.mp hnd1).2
        have hsegnd : (segs.map Prod.fst).Nodup :=
          hnd2 (n0, segs) (List.mem_cons_self _ _)
        have htailIH := tableDeviations_lookup expected rest tail hndr
          (fun row hrow => hnd2 row (List.mem_cons_of_mem _ hrow)) hrec
        have hrowlk := segDeviations_lookup expected segs devRow hsegnd hsd
        have htail_none : alistFind n0 tail = none := by
          rw [alistFind_eq_none]
          intro hmem
          rcases List.mem_map.mp hmem with ⟨row, hrow, hfst⟩
          exact hn0 (hfst ▸ tableDeviations_rows_sub expected rest tail
            hrec row hrow)
        by_cases hn : n0 = n
        · subst hn
          conv_rhs => rw [lookup2, alistFind_cons, if_pos rfl,
            Option.some_bind]
          by_cases he : devRow.isEmpty
          · rw [← h, if_pos he]
            have hdevnil : devRow = [] := List.isEmpty_iff.mp he
            rw [lookup2, htail_none, Option.none_bind, ← hrowlk s, hdevnil]
            rfl
          · rw [← h, if_neg he]
            rw [lookup2, alistFind_cons, if_pos rfl, Option.some_bind]
            exact hrowlk s
        · conv_rhs => rw [lookup2, alistFind_cons, if_neg hn]
          by_cases he : devRow.isEmpty
          · rw [← h, if_pos he]
            exact htailIH n s
          · rw [← h, if_neg he]
            rw [lookup2, alistFind_cons, if_neg hn]
            exact htailIH n s

theorem check_eq_of_nonempty_expected (st : EngineState) (table : TopoTable)
    (h : st.expectedTopologiesBySegment ≠ []) :
    checkTopologyConsistency st table =
      (tableDeviations st.expectedTopologiesBySegment table).map
        (fun d => (st, (!d.isEmpty, d))) := by
  have hemp : st.expectedTopologiesBySegment.isEmpty = false := by
    cases hc : st.expectedTopologiesBySegment.isEmpty
    · rfl
    · exact absurd (List.isEmpty_iff.mp hc) h
  simp only [checkTopologyConsistency, hemp, Bool.false_eq_true, if_false]
  cases htd : tableDeviations st.expectedTopologiesBySegment table with
  | error e => rfl
  | ok d => rfl

theorem check_ok_same_topologyDict (st : EngineState) (table : TopoTable)
    (st1 : EngineState) (r : Bool × TopoTable)
    (h : checkTopologyConsistency st table = Except.ok (st1, r)) :
    st1.topologyDict = st.topologyDict := by
  simp only [checkTopologyConsistency] at h
  cases hini : (if st.expectedTopologiesBySegment.isEmpty then
      initExpectedTopologyBySegmentWithModes table
    else Except.ok st.expectedTopologiesBySegment) with
  | error e => rw [hini] at h; exact absurd h (by simp)
  | ok expected =>
    rw [hini] at h
    dsimp only at h
    cases htd : tableDeviations expected table with
    | error e => rw [htd] at h; exact absurd h (by simp)
    | ok devs =>
      rw [htd] at h
      injection h with h
      have h1 : st1 = { st with expectedTopologiesBySegment := expected } :=
        (congrArg Prod.fst h).symm
      rw [h1]

theorem populateSegmentsAux_no_bg :
    ∀ (segs : List (String × Option Int)) (acc : SegTable),
      (∀ e ∈ acc, e.1 ≠ "0") →
      ∀ e ∈ segs.foldl
        (fun acc2 seg =>
          if seg.1 = "0" then acc2
          else
            match seg.2 with
            | none => acc2
            | some topologyNumber => alistInsert seg.1 topologyNumber acc2)
        acc, e.1 ≠ "0"
  | [], acc => fun hacc => hacc
  | seg :: rest, acc => by
    intro hacc
    simp only [List.foldl_cons]
    apply populateSegmentsAux_no_bg rest
    by_cases h0 : seg.1 = "0"
    · rw [if_pos h0]
      exact hacc
    · rw [if_neg h0]
      cases hm : seg.2 with
      | none => exact hacc
      | some topologyNumber =>
        intro e he
        rcases mem_alistInsert seg.1 topologyNumber acc e he with he | he
        · rw [he]
          exact h0
        · exact hacc e he

theorem populateSegmentsForNode_no_bg (segs : List (String × Option Int)) :
    ∀ e ∈ populateSegmentsForNode segs, e.1 ≠ "0" :=
  populateSegmentsAux_no_bg segs [] (by simp)

theorem populateTopologyAux_no_bg :
    ∀ (nodes : List (String × List (String × Option Int))) (td : TopoTable),
      noBackgroundSegment td →
      noBackgroundSegment (nodes.foldl
        (fun td2 node => alistInsert node.1 (populateSegmentsForNode node.2) td2)
        td)
  | [], td => fun htd => htd
  | node :: rest, td => by
    intro htd
    simp only [List.foldl_cons]
    apply populateTopologyAux_no_bg rest
    intro row hrow e he
    rcases mem_alistInsert node.1 (populateSegmentsForNode node.2) td
      row hrow with hr | hr
    · rw [hr] at he
      exact populateSegmentsForNode_no_bg node.2 e he
    · exact htd row hr e he

theorem importSegmentation_topologyDict (st : EngineState) (f : String)
    (l : Option (List (String × Option Int))) :
    ((importSegmentation st f l).2).topologyDict = st.topologyDict := by
  cases l with
  | none => rfl
  | some segments =>
    simp only [importSegmentation]
    by_cases h : (checkLabelRangeConsistency st.labelRangeInCohort
        (segments.length : Int)).1
    · rw [if_pos h]
    · rw [if_neg h]

theorem importLabelMap_topologyDict (st : EngineState) (f : String)
    (l : Option (List (String × Option Int))) :
    ((importLabelMap st f l).2).topologyDict = st.topologyDict := by
  cases l with
  | none => rfl
  | some segments =>
    simp only [importLabelMap]
    by_cases h : (checkLabelRangeConsistency st.labelRangeInCohort
        (segments.length : Int)).1
    · rw [if_pos h]
    · rw [if_neg h]

theorem importModel_topologyDict (st : EngineState) (f : String)
    (l : Option (Option Int)) :
    ((importModel st f l).2).topologyDict = st.topologyDict := by
  cases l with
  | none => rfl
  | some mesh =>
    simp only [importModel]
    by_cases h : (checkLabelRangeConsistency st.labelRangeInCohort
        (([("1", mesh)] : List (String × Option Int)).length : Int)).1
    · rw [if_pos h]
    · rw [if_neg h]

theorem populateInconsistent_topologyDict (st : EngineState) :
    (populateInconsistentTopologyDict st).topologyDict = st.topologyDict := by
  simp only [populateInconsistentTopologyDict]
  by_cases h : st.topologyDict.isEmpty
  · rw [if_pos h]
  · rw [if_neg h]
    cases hc : checkTopologyConsistency st st.topologyDict with
    | error e => rfl
    | ok pr =>
      match pr, hc with
      | (st1, r), hc =>
        exact check_ok_same_topologyDict st st.topologyDict st1 r hc

theorem runOp_preserves_no_bg (st : EngineState) (op : EngineOp)
    (h : noBackgroundSegment st.topologyDict) :
    noBackgroundSegment (runOp st op).topologyDict := by
  cases op with
  | opImportLabelMap f l =>
    rw [runOp, importLabelMap_topologyDict]
    exact h
  | opImportSegmentation f l =>
    rw [runOp, importSegmentation_topologyDict]
    exact h
  | opImportModel f l =>
    rw [runOp, importModel_topologyDict]
    exact h
  | opPopulateTopology =>
    exact populateTopologyAux_no_bg st.segmentationDict st.topologyDict h
  | opPopulateInconsistent =>
    rw [runOp, populateInconsistent_topologyDict]
    exact h
  | opCleanup =>
    intro row hrow
    exact absurd hrow (List.not_mem_nil row)

theorem foldl_runOp_preserves_no_bg :
    ∀ (ops : List EngineOp) (st : EngineState),
      noBackgroundSegment st.topologyDict →
      noBackgroundSegment (ops.foldl runOp st).topologyDict
  | [], st => fun h => h
  | op :: rest, st => by
    intro h
    simp only [List.foldl_cons]
    exact foldl_runOp_preserves_no_bg rest (runOp st op)
      (runOp_preserves_no_bg st op h)

/-- C1: for every topology number chi, the classification maps chi to the
named topology kind by exact lookup: 0 to the strip kind, 1 to Disk, 2 to
Sphere, -2 to Double Torus, -4 to Triple Torus, and every chi outside that
named set to the Multiple Holes kind (shown either as the plain Multiple
Holes label, for the sentinel key, or as the number-prefixed Multiple Holes
label). -/
theorem claim_topology_classification (chi : Int) (node seg : String) :
    (chi = 0 → getTopologyString { initEngineState with
        topologyDict := [(node, [(seg, chi)])] } node seg
      = "Circle/Torus/Mobius Strip")
    ∧ (chi = 1 → getTopologyString { initEngineState with
        topologyDict := [(node, [(seg, chi)])] } node seg = "Disk")
    ∧ (chi = 2 → getTopologyString { initEngineState with
        topologyDict := [(node, [(seg, chi)])] } node seg = "Sphere")
    ∧ (chi = -2 → getTopologyString { initEngineState with
        topologyDict := [(node, [(seg, chi)])] } node seg = "Double Torus")
    ∧ (chi = -4 → getTopologyString { initEngineState with
        topologyDict := [(node, [(seg, chi)])] } node seg = "Triple Torus")
    ∧ (chi ∉ ([0, 1, 2, -2, -4] : List Int) →
        getTopologyString { initEngineState with
          topologyDict := [(node, [(seg, chi)])] } node seg = "Multiple Holes"
        ∨ getTopologyString { initEngineState with
            topologyDict := [(node, [(seg, chi)])] } node seg
          = toString chi ++ ": Multiple Holes") := by
  have hlk : ∀ c : Int, lookup2 [(node, [(seg, c)])] node seg = some c := by
    intro c
    simp [lookup2, alistFind]
  refine ⟨?_, ?_, ?_, ?_, ?_, ?_⟩
  · intro h
    subst h
    simp [getTopologyString, hlk, alistFind, TOPOLOGY_TYPES,
      TOPOLOGY_STRIP_TYPE, TOPOLOGY_DISK_TYPE, TOPOLOGY_SPHERE_TYPE,
      TOPOLOGY_DOUBLE_TORUS_TYPE, TOPOLOGY_TRIPLE_TORUS_TYPE,
      TOPOLOGY_MULTIPLE_HOLES_TYPE]
  · intro h
    subst h
    simp [getTopologyString, hlk, alistFind, TOPOLOGY_TYPES,
      TOPOLOGY_STRIP_TYPE, TOPOLOGY_DISK_TYPE, TOPOLOGY_SPHERE_TYPE,
      TOPOLOGY_DOUBLE_TORUS_TYPE, TOPOLOGY_TRIPLE_TORUS_TYPE,
      TOPOLOGY_MULTIPLE_HOLES_TYPE]
  · intro h
    subst h
    simp [getTopologyString, hlk, alistFind, TOPOLOGY_TYPES,
      TOPOLOGY_STRIP_TYPE, TOPOLOGY_DISK_TYPE, TOPOLOGY_SPHERE_TYPE,
      TOPOLOGY_DOUBLE_TORUS_TYPE, TOPOLOGY_TRIPLE_TORUS_TYPE,
      TOPOLOGY_MULTIPLE_HOLES_TYPE]
  · intro h
    subst h
    simp [getTopologyString, hlk, alistFind, TOPOLOGY_TYPES,
      TOPOLOGY_STRIP_TYPE, TOPOLOGY_DISK_TYPE, TOPOLOGY_SPHERE_TYPE,
      TOPOLOGY_DOUBLE_TORUS_TYPE, TOPOLOGY_TRIPLE_TORUS_TYPE,
      TOPOLOGY_MULTIPLE_HOLES_TYPE]
  · intro h
    subst h
    simp [getTopologyString, hlk, alistFind, TOPOLOGY_TYPES,
      TOPOLOGY_STRIP_TYPE, TOPOLOGY_DISK_TYPE, TOPOLOGY_SPHERE_TYPE,
      TOPOLOGY_DOUBLE_TORUS_TYPE, TOPOLOGY_TRIPLE_TORUS_TYPE,
      TOPOLOGY_MULTIPLE_HOLES_TYPE]
  · intro h
    simp only [List.mem_cons, List.not_mem_nil, or_false, not_or] at h
    obtain ⟨h0, h1, h2, hm2, hm4⟩ := h
    by_cases hmh : chi = -9999
    · subst hmh
      left
      simp [getTopologyString, hlk, alistFind, TOPOLOGY_TYPES,
        TOPOLOGY_STRIP_TYPE, TOPOLOGY_DISK_TYPE, TOPOLOGY_SPHERE_TYPE,
        TOPOLOGY_DOUBLE_TORUS_TYPE, TOPOLOGY_TRIPLE_TORUS_TYPE,
        TOPOLOGY_MULTIPLE_HOLES_TYPE]
    · right
      have hfind : alistFind chi TOPOLOGY_TYPES = none := by
        simp [alistFind, TOPOLOGY_TYPES, TOPOLOGY_STRIP_TYPE,
          TOPOLOGY_DISK_TYPE, TOPOLOGY_SPHERE_TYPE,
          TOPOLOGY_DOUBLE_TORUS_TYPE, TOPOLOGY_TRIPLE_TORUS_TYPE,
          TOPOLOGY_MULTIPLE_HOLES_TYPE, Ne.symm h0, Ne.symm h1,
          Ne.symm h2, Ne.symm hm2, Ne.symm hm4, Ne.symm hmh]
      have hstr : getTopologyString { initEngineState with
          topologyDict := [(node, [(seg, chi)])] } node seg
          = toString chi ++ ": " ++
            ((alistFind TOPOLOGY_MULTIPLE_HOLES_TYPE TOPOLOGY_TYPES).getD "") := by
        simp only [getTopologyString, hlk chi, hfind]
      rw [hstr, String.append_assoc]
      rfl

/-- C1 witness: a topology number outside the named set is classified into
the Multiple Holes bucket. -/
theorem claim_topology_classification_witness :
    getTopologyString { initEngineState with
        topologyDict := [("case01", [("1", (5 : Int))])] } "case01" "1"
      = "Multiple Holes"
    ∨ getTopologyString { initEngineState with
        topologyDict := [("case01", [("1", (5 : Int))])] } "case01" "1"
      = toString (5 : Int) ++ ": Multiple Holes" :=
  (claim_topology_classification 5 "case01" "1").2.2.2.2.2 (by decide)

/-- C2: for a non-empty expectation map covering the table, the consistency
check returns the deviation table holding exactly the mismatching
(subject, segment, actual) entries, the flag is true exactly when that table
is non-empty, and an all-matching table yields (false, empty). -/
theorem claim_consistency_records_exact (st : EngineState) (table : TopoTable)
    (hne : st.expectedTopologiesBySegment ≠ [])
    (hcov : ∀ row ∈ table, ∀ e ∈ row.2,
      (alistFind e.1 st.expectedTopologiesBySegment).isSome)
    (hnd1 : (table.map Prod.fst).Nodup)
    (hnd2 : ∀ row ∈ table, (row.2.map Prod.fst).Nodup) :
    ∃ devs,
      checkTopologyConsistency st table = Except.ok (st, (!devs.isEmpty, devs))
      ∧ (∀ n s, lookup2 devs n s =
          (lookup2 table n s).bind
            (fun k => if alistFind s st.expectedTopologiesBySegment = some k
                      then none else some k))
      ∧ ((!devs.isEmpty) = true ↔ devs ≠ [])
      ∧ ((∀ row ∈ table, ∀ e ∈ row.2,
            alistFind e.1 st.expectedTopologiesBySegment = some e.2) →
          devs = [] ∧
          checkTopologyConsistency st table
            = Except.ok (st, (false, []))) := by
  obtain ⟨devs, hdevs⟩ :=
    tableDeviations_ok_of_covering st.expectedTopologiesBySegment table hcov
  refine ⟨devs, ?_, ?_, ?_, ?_⟩
  · rw [check_eq_of_nonempty_expected st table hne, hdevs]
    rfl
  · exact tableDeviations_lookup st.expectedTopologiesBySegment table devs
      hnd1 hnd2 hdevs
  · constructor
    · intro hb hnil
      rw [hnil] at hb
      exact absurd hb (by decide)
    · intro hnil
      cases hd : devs.isEmpty
      · rfl
      · exact absurd (List.isEmpty_iff.mp hd) hnil
  · intro hmatch
    have h0 := tableDeviations_all_match st.expectedTopologiesBySegment
      table hmatch
    have hdnil : devs = [] :=
      Except.ok.inj (hdevs.symm.trans h0)
    refine ⟨hdnil, ?_⟩
    rw [check_eq_of_nonempty_expected st table hne, h0]
    rfl

/-- C2 witness: a concrete matching table produces the (false, empty)
result through the general theorem. -/
theorem claim_consistency_records_exact_witness :
    checkTopologyConsistency { initEngineState with
        expectedTopologiesBySegment := [("1", 2), ("2", 0)] }
      [("case01", [("1", 2), ("2", 0)]), ("case02", [("1", 2), ("2", 0)])]
      = Except.ok ({ initEngineState with
          expectedTopologiesBySegment := [("1", 2), ("2", 0)] },
          (false, [])) := by
  obtain ⟨devs, h1, h2, h3, h4⟩ := claim_consistency_records_exact
    { initEngineState with
        expectedTopologiesBySegment := [("1", 2), ("2", 0)] }
    [("case01", [("1", 2), ("2", 0)]), ("case02", [("1", 2), ("2", 0)])]
    (by decide) (by decide) (by decide) (by decide)
  exact (h4 (by decide)).2

/-- C3: the label-range gate is an atomic accept or reject per subject: with
the cohort range still unset, an import of a subject with N segments is
accepted and records the range (0, N); with the range set to (0, N),
importing a subject with a differing segment count is rejected and the
whole engine state, in particular the topology table, the registry and the
recorded range, is returned unchanged. -/
theorem claim_labelRange_atomic (st : EngineState) (f : String)
    (segments : List (String × Option Int)) :
    (st.labelRangeInCohort = (-1, -1) →
      importSegmentation st f (some segments)
        = (true, { st with
            segmentationDict := alistInsert f segments st.segmentationDict,
            labelRangeInCohort := ((0 : Int), (segments.length : Int)) }))
    ∧ ∀ N : Int, st.labelRangeInCohort = (0, N) →
        (segments.length : Int) ≠ N →
        importSegmentation st f (some segments) = (false, st) := by
  constructor
  · intro h
    have hres : checkLabelRangeConsistency st.labelRangeInCohort
        (segments.length : Int)
        = (true, ((0 : Int), (segments.length : Int))) := by
      simp only [checkLabelRangeConsistency, h]
      rw [if_neg]
      intro hc
      exact hc.1 rfl
    simp only [importSegmentation, hres]
    rfl
  · intro N h hneq
    have hres : checkLabelRangeConsistency st.labelRangeInCohort
        (segments.length : Int)
        = (false, ((0 : Int), (segments.length : Int))) := by
      simp only [checkLabelRangeConsistency, h]
      rw [if_pos]
      constructor
      · intro hc
        have := congrArg Prod.fst hc
        simp at this
      · intro hc
        exact hneq (congrArg Prod.snd hc)
    simp only [importSegmentation, hres]
    rfl

/-- C3 witness: with the cohort range fixed at (0, 5), importing a subject
with one segment is rejected and the state is unchanged. -/
theorem claim_labelRange_atomic_witness :
    importSegmentation { initEngineState with
        labelRangeInCohort := ((0 : Int), (5 : Int)) } "case02"
      (some [("1", some 2)])
      = (false, { initEngineState with
          labelRangeInCohort := ((0 : Int), (5 : Int)) }) :=
  (claim_labelRange_atomic { initEngineState with
      labelRangeInCohort := ((0 : Int), (5 : Int)) } "case02"
      [("1", some 2)]).2 5 rfl (by decide)

/-- C4 counterexample: invoked on the empty table the resolver does not
fail with an error at all; it succeeds and returns an empty expectation
map. -/
theorem claim_resolver_empty_counterexample :
    initExpectedTopologyBySegmentWithModes ([] : TopoTable) = Except.ok []
    ∧ (initExpectedTopologyBySegmentWithModes ([] : TopoTable)).isOk = true :=
  ⟨rfl, rfl⟩

/-- C4 amended: the resolver never raises for a valid non-empty table, and
on the empty table it does not raise either, returning the empty expectation
map; only the underlying per-segment mode helper raises when applied
directly to an empty table. -/
theorem claim_resolver_totality :
    (∀ table : TopoTable, table ≠ [] →
      ∃ e, initExpectedTopologyBySegmentWithModes table = Except.ok e)
    ∧ initExpectedTopologyBySegmentWithModes ([] : TopoTable) = Except.ok []
    ∧ ∀ s : String, ∃ msg,
        computeModeOfSegment ([] : TopoTable) s = Except.error msg := by
  refine ⟨?_, rfl, ?_⟩
  · intro table h
    exact initExpectedGo_ok table h (collectSegmentNames table)
  · intro s
    exact ⟨"StopIteration", rfl⟩

/-- C4 witness: the resolver succeeds on the concrete non-empty example
table. -/
theorem claim_resolver_totality_witness :
    ∃ e, initExpectedTopologyBySegmentWithModes modeExampleTable
      = Except.ok e :=
  claim_resolver_totality.1 modeExampleTable (by decide)

/-- C5 counterexample: running the consistency check with an empty
expectation map mutates the engine state, initialising the expectation map
from the table, so the check is not side-effect-free for every expectation
state. -/
theorem claim_consistency_pure_counterexample :
    checkTopologyConsistency initEngineState [("case01", [("1", 2)])]
      = Except.ok ({ initEngineState with
          expectedTopologiesBySegment := [("1", 2)] }, (false, []))
    ∧ { initEngineState with
          expectedTopologiesBySegment := [("1", (2 : Int))] }
        ≠ initEngineState := by
  exact ⟨rfl, by decide⟩

/-- C5 amended: for every table and every NON-EMPTY expectation state the
consistency check leaves the engine state unchanged, its result is a pure
function of the table and the expectation map as they stand at call time
(so editing the expectation map and re-running changes the deviations
without re-running the resolver), and running it twice yields the same
state and result as running it once. -/
theorem claim_consistency_pure (st : EngineState) (table : TopoTable)
    (hne : st.expectedTopologiesBySegment ≠ []) :
    (checkTopologyConsistency st table =
      (tableDeviations st.expectedTopologiesBySegment table).map
        (fun d => (st, (!d.isEmpty, d))))
    ∧ ∀ (st2 : EngineState) (r : Bool × TopoTable),
        checkTopologyConsistency st table = Except.ok (st2, r) →
        st2 = st ∧ checkTopologyConsistency st2 table = Except.ok (st2, r) := by
  have heq := check_eq_of_nonempty_expected st table hne
  refine ⟨heq, ?_⟩
  intro st2 r hok
  have hst : st2 = st := by
    rw [heq] at hok
    cases htd : tableDeviations st.expectedTopologiesBySegment table with
    | error e =>
      rw [htd] at hok
      exact absurd hok (by simp [Except.map])
    | ok d =>
      rw [htd] at hok
      simp only [Except.map] at hok
      injection hok with hok
      exact (congrArg Prod.fst hok).symm
  exact ⟨hst, by rw [hst]; exact hst ▸ hok⟩

/-- C5 witness: with a concrete non-empty expectation map the check returns
the unchanged state and the pure comparison result. -/
theorem claim_consistency_pure_witness :
    checkTopologyConsistency { initEngineState with
        expectedTopologiesBySegment := [("1", 2)] } [("case01", [("1", 2)])]
      = Except.ok ({ initEngineState with
          expectedTopologiesBySegment := [("1", 2)] }, (false, [])) := by
  have h := (claim_consistency_pure { initEngineState with
      expectedTopologiesBySegment := [("1", 2)] } [("case01", [("1", 2)])]
      (by decide)).1
  rw [h]
  rfl

/-- C6: the per-segment mode computation returns a value of maximal
frequency among the values observed for that segment; on the documented
example it yields 1 for segA and 0 for segB; and a segment observed nowhere
yields no observation (None, and the segment is absent from the resolver
map) rather than an error. -/
theorem claim_mode_resolution :
    (∀ (table : TopoTable) (s : String), table ≠ [] →
      (∀ v : Int, computeModeOfSegment table s = Except.ok (some v) →
        v ∈ segmentObservations table s ∧
        ∀ w ∈ segmentObservations table s,
          (segmentObservations table s).count w ≤
            (segmentObservations table s).count v)
      ∧ (segmentObservations table s = [] →
          computeModeOfSegment table s = Except.ok none)
      ∧ ∀ e, initExpectedTopologyBySegmentWithModes table = Except.ok e →
          segmentObservations table s = [] → alistFind s e = none)
    ∧ computeModeOfSegment modeExampleTable "segA" = Except.ok (some 1)
    ∧ computeModeOfSegment modeExampleTable "segB" = Except.ok (some 0) := by
  refine ⟨?_, by decide, by decide⟩
  intro table s h
  refine ⟨?_, ?_, ?_⟩
  · intro v hv
    exact computeMode_some_spec table s v hv
  · exact fun hobs => computeMode_none_of_no_observation table h s hobs
  · exact fun e he hobs => resolver_absent_of_no_observation table s e he hobs

/-- C6 witness: on the example table the mode of segA is an observed value
of maximal frequency. -/
theorem claim_mode_resolution_witness :
    (1 : Int) ∈ segmentObservations modeExampleTable "segA" ∧
    ∀ w ∈ segmentObservations modeExampleTable "segA",
      (segmentObservations modeExampleTable "segA").count w ≤
        (segmentObservations modeExampleTable "segA").count 1 :=
  (claim_mode_resolution.1 modeExampleTable "segA" (by decide)).1 1 (by decide)

/-- C7: with a non-empty expectation map, a segment present in the table
but absent from the expectation map makes the consistency check raise
(KeyError) instead of silently skipping the entry. -/
theorem claim_check_fails_loudly (st : EngineState) (table : TopoTable)
    (n s : String) (segs : SegTable) (k : Int)
    (hne : st.expectedTopologiesBySegment ≠ [])
    (hrow : (n, segs) ∈ table) (hseg : (s, k) ∈ segs)
    (hmiss : alistFind s st.expectedTopologiesBySegment = none) :
    ∃ msg, checkTopologyConsistency st table = Except.error msg := by
  have heq := check_eq_of_nonempty_expected st table hne
  cases htd : tableDeviations st.expectedTopologiesBySegment table with
  | error e =>
    exact ⟨e, by rw [heq, htd]; rfl⟩
  | ok d =>
    obtain ⟨v, hv⟩ := tableDeviations_covering_of_ok
      st.expectedTopologiesBySegment table d htd (n, segs) hrow (s, k) hseg
    have hv2 : alistFind s st.expectedTopologiesBySegment = some v := hv
    rw [hv2] at hmiss
    exact absurd hmiss (by simp)

/-- C7 witness: a concrete table with a segment unknown to a concrete
non-empty expectation map makes the check fail. -/
theorem claim_check_fails_loudly_witness :
    ∃ msg, checkTopologyConsistency { initEngineState with
        expectedTopologiesBySegment := [("a", 1)] } [("n", [("b", 2)])]
      = Except.error msg :=
  claim_check_fails_loudly { initEngineState with
      expectedTopologiesBySegment := [("a", 1)] } [("n", [("b", 2)])]
    "n" "b" [("b", 2)] 2 (by decide) (by decide) (by decide) (by decide)

/-- C8: the per-segment mode computation is deterministic: for a fixed
table in a fixed iteration order, two runs return the same value, also when
topology values tie for most frequent (the tied choice is
implementation-defined, not random). -/
theorem claim_mode_deterministic (table : TopoTable) (s : String)
    (r1 r2 : Except String (Option Int))
    (h1 : computeModeOfSegment table s = r1)
    (h2 : computeModeOfSegment table s = r2) : r1 = r2 := by
  rw [← h1, ← h2]

/-- C8 witness: on a table where two values tie for most frequent on
segment s, the computation returns the fixed tied value 0. -/
theorem claim_mode_deterministic_witness :
    computeModeOfSegment tieTable "s" = Except.ok (some 0) :=
  claim_mode_deterministic tieTable "s"
    (computeModeOfSegment tieTable "s") (Except.ok (some 0)) rfl (by decide)

/-- C9: after any sequence of imports, topology computation, consistency
computation and cleanup from a fresh engine, no entry of the topology table
has the background segment name "0". -/
theorem claim_no_background_segment (ops : List EngineOp) :
    noBackgroundSegment (runOps ops).topologyDict :=
  foldl_runOp_preserves_no_bg ops initEngineState
    (fun row hrow => absurd hrow (List.not_mem_nil row))

/-- C10: the consistency label query returns Inconsistent exactly for the
pairs recorded in the inconsistency table and Consistent for every other
pair, including pairs never classified at all. -/
theorem claim_consistency_label (st : EngineState) (node seg : String) :
    (getConsistencyString st node seg = "Inconsistent" ↔
      ∃ k, lookup2 st.inconsistentTopologyDict node seg = some k)
    ∧ (getConsistencyString st node seg = "Consistent" ↔
      lookup2 st.inconsistentTopologyDict node seg = none) := by
  simp only [getConsistencyString, lookup2]
  cases hn : alistFind node st.inconsistentTopologyDict with
  | none =>
    dsimp only
    refine ⟨⟨fun h => absurd h (by decide), fun h => ?_⟩,
      ⟨fun _ => rfl, fun _ => rfl⟩⟩
    obtain ⟨k, hk⟩ := h
    exact absurd hk (by simp)
  | some inner =>
    dsimp only
    cases hs : alistFind seg inner with
    | none =>
      dsimp only
      refine ⟨⟨fun h => absurd h (by decide), fun h => ?_⟩,
        ⟨fun _ => ?_, fun _ => rfl⟩⟩
      · obtain ⟨k, hk⟩ := h
        rw [Option.some_bind, hs] at hk
        exact absurd hk (by simp)
      · rw [Option.some_bind, hs]
    | some k0 =>
      dsimp only
      refine ⟨⟨fun _ => ⟨k0, ?_⟩, fun _ => rfl⟩,
        ⟨fun h => absurd h (by decide), fun h => ?_⟩⟩
      · rw [Option.some_bind, hs]
      · rw [Option.some_bind, hs] at h
        exact absurd h (by simp)

end DataImporter
